import Mathlib

/-!
Shallow embedding of `cruncher.py` (syscalls-heatmap): aggregation of a
syscall-status spreadsheet with per-application syscall-usage JSON reports,
and the two CSV reports, together with proofs of the specification claims.

Python dictionaries are embedded as association lists in insertion order
(Python dicts preserve insertion order; assignment to an existing key keeps
its position).  The Python `set` used per application is embedded as a
first-occurrence-deduplicated list; no proved claim depends on set
iteration order.  A Python `KeyError` is embedded as `Option.none`.
-/

namespace Cruncher

/-- Substring containment on lists of characters: embeds the Python
`needle in hay` test on strings. -/
def listContainsSub (needle : List Char) : List Char → Bool
  | [] => needle.isEmpty
  | c :: t => needle.isPrefixOf (c :: t) || listContainsSub needle t

/-- Python `needle in hay` for strings. -/
def strContains (hay needle : String) : Bool :=
  listContainsSub needle.data hay.data

/-- Status normalization chain of `process_syscall_spreadsheet`
(cruncher.py lines 170-187), applied to the raw status cell text. -/
def normalizeStatus (s : String) : String :=
  if s.length = 0 then "NOT_IMPL"
  else if strContains s "incomplete" then "INCOMPLETE"
  else if strContains s "registration missing" then "REG_MISS"
  else if strContains s "stubbed" then "STUBBED"
  else if strContains s "planned" then "PLANNED"
  else if strContains s "progress" then "IN_PROGRESS"
  else if strContains s "broken" then "BROKEN"
  else if strContains s "okay" then "OKAY"
  else s

/-- Modelled from the spec's words (spec.md section 4.1): the first-match-wins
precedence the specification describes for the status normalizer.  Kept as a
separate definition so the code's chain can be proved to refine it. -/
def specStatusNormalize (s : String) : String :=
  if s = "" then "NOT_IMPL"
  else if strContains s "incomplete" then "INCOMPLETE"
  else if strContains s "registration missing" then "REG_MISS"
  else if strContains s "stubbed" then "STUBBED"
  else if strContains s "planned" then "PLANNED"
  else if strContains s "progress" then "IN_PROGRESS"
  else if strContains s "broken" then "BROKEN"
  else if strContains s "okay" then "OKAY"
  else s

/-- A spreadsheet cell as xlrd delivers it to the id column: either text or a
number (numeric cells; Python `int()` truncates a float, so the numeric case
carries the truncated integer). -/
inductive CellValue where
  | str (s : String)
  | num (n : Int)
deriving DecidableEq, Repr

/-- Python `int(cell_value)` as a fallible conversion: a numeric cell
converts directly, a text cell goes through the integer-literal parse and
raises `ValueError` (here: `none`) when the text is not an integer. -/
def pyInt : CellValue → Option Int
  | .num n => some n
  | .str s => s.toInt?

/-- The `try: int(...) except ValueError: -1` of cruncher.py lines 160-165:
parse the id cell, substituting the sentinel -1 on failure. -/
def parseRax (c : CellValue) : Int :=
  match pyInt c with
  | some n => n
  | none => -1

/-- One data row of the spreadsheet, restricted to the three columns the
program reads (id, name, status). -/
structure SheetRow where
  rax : CellValue
  name : String
  status : String
deriving Repr

/-- The `data_sheet` triple of column lists returned by
`process_syscall_spreadsheet`. -/
structure DataSheet where
  ids : List Int
  names : List String
  stats : List String
deriving Repr

/-- `process_syscall_spreadsheet` (cruncher.py lines 137-189) on the data
rows (the caller already skipped the header row). -/
def processSyscallSpreadsheet (rows : List SheetRow) : DataSheet :=
  { ids := rows.map (fun r => parseRax r.rax)
    names := rows.map (fun r => r.name)
    stats := rows.map (fun r => normalizeStatus r.status) }

/-- One entry of the `syscalls` dictionary. -/
structure SyscallRecord where
  id : Int
  name : String
  status : String
  apps : List String
deriving DecidableEq, Repr

/-- One entry of the `undefined_syscalls` dictionary. -/
structure UndefRecord where
  name : String
  apps : List String
deriving DecidableEq, Repr

/-- The per-application bucket dictionary built at cruncher.py lines 84-94:
it always has exactly these nine keys, so it is embedded as a structure. -/
structure Buckets where
  okay : List String
  absent : List String
  not_impl : List String
  incomplete : List String
  reg_miss : List String
  stubbed : List String
  broken : List String
  in_progress : List String
  planned : List String
deriving DecidableEq, Repr

/-- The fresh bucket dictionary of cruncher.py lines 84-94. -/
def initBuckets : Buckets :=
  { okay := [], absent := [], not_impl := [], incomplete := [], reg_miss := []
    stubbed := [], broken := [], in_progress := [], planned := [] }

/-- A parsed per-application JSON document: each optional section carries the
symbol keys of its `system_calls` collection when the section is present. -/
structure AppJson where
  static_data : Option (List String)
  dynamic_data : Option (List String)
deriving Repr

/-- Symbols contributed by the static section (none when absent). -/
def staticSyms (j : AppJson) : List String :=
  match j.static_data with
  | some l => l
  | none => []

/-- Symbols contributed by the dynamic section (none when absent). -/
def dynSyms (j : AppJson) : List String :=
  match j.dynamic_data with
  | some l => l
  | none => []

/-- Python `set.add`: keep the list deduplicated, first occurrence kept. -/
def addUnique (acc : List String) (s : String) : List String :=
  if s ∈ acc then acc else acc ++ [s]

/-- The `local_set` of `process_application_json` (cruncher.py lines 69-81):
all syscall symbols of the static section, then of the dynamic section,
collected into a set. -/
def localSet (j : AppJson) : List String :=
  (staticSyms j ++ dynSyms j).foldl addUnique []

/-- Association-list lookup: Python `d[k]` returning `none` on a missing key. -/
def lookupA {α : Type} : List (String × α) → String → Option α
  | [], _ => none
  | (k2, v) :: t, k => if k2 = k then some v else lookupA t k

/-- Python dictionary assignment `d[k] = v`: replace in place when the key
exists, otherwise append at the end. -/
def dictInsert {α : Type} (d : List (String × α)) (k : String) (v : α) :
    List (String × α) :=
  if d.any (fun p => p.1 = k) then
    d.map (fun p => if p.1 = k then (k, v) else p)
  else
    d ++ [(k, v)]

/-- The whole mutable state of cruncher.py: the `apps`, `syscalls` and
`undefined_syscalls` dictionaries. -/
structure CruncherState where
  apps : List (String × Buckets)
  syscalls : List (String × SyscallRecord)
  undefined_syscalls : List (String × UndefRecord)
deriving Repr

/-- The status looked up for a symbol at cruncher.py lines 96-99:
the record's status when the symbol is a key of `syscalls`, else "ABSENT". -/
def statusFor (sys : List (String × SyscallRecord)) (sym : String) : String :=
  match lookupA sys sym with
  | some r => r.status
  | none => "ABSENT"

/-- `apps[app_name][status].append(symbol)` (cruncher.py line 100): appends
into the bucket named by `status`; any other status string is a `KeyError`,
embedded as `none`. -/
def bucketAppend (b : Buckets) (status sym : String) : Option Buckets :=
  if status = "OKAY" then some { b with okay := b.okay ++ [sym] }
  else if status = "ABSENT" then some { b with absent := b.absent ++ [sym] }
  else if status = "NOT_IMPL" then some { b with not_impl := b.not_impl ++ [sym] }
  else if status = "INCOMPLETE" then some { b with incomplete := b.incomplete ++ [sym] }
  else if status = "REG_MISS" then some { b with reg_miss := b.reg_miss ++ [sym] }
  else if status = "STUBBED" then some { b with stubbed := b.stubbed ++ [sym] }
  else if status = "BROKEN" then some { b with broken := b.broken ++ [sym] }
  else if status = "IN_PROGRESS" then some { b with in_progress := b.in_progress ++ [sym] }
  else if status = "PLANNED" then some { b with planned := b.planned ++ [sym] }
  else none

/-- The first loop of `process_application_json` (cruncher.py lines 95-100):
place every symbol of the set into the bucket of its looked-up status. -/
def buildBuckets (sys : List (String × SyscallRecord)) :
    List String → Buckets → Option Buckets
  | [], b => some b
  | sym :: rest, b =>
    match bucketAppend b (statusFor sys sym) sym with
    | none => none
    | some b2 => buildBuckets sys rest b2

/-- One iteration of the second loop of `process_application_json`
(cruncher.py lines 104-118): linear-search the symbol among the `syscalls`
keys; append the application name to the record's `apps` list when found,
otherwise find-or-create the undefined record and append there. -/
def recordApp (st : CruncherState) (appName sym : String) : CruncherState :=
  if st.syscalls.any (fun p => p.1 = sym) then
    { st with syscalls := st.syscalls.map (fun p =>
        if p.1 = sym then (p.1, { p.2 with apps := p.2.apps ++ [appName] }) else p) }
  else
    let und :=
      if st.undefined_syscalls.any (fun p => p.1 = sym) then st.undefined_syscalls
      else st.undefined_syscalls ++ [(sym, { name := sym, apps := [] })]
    { st with undefined_syscalls := und.map (fun p =>
        if p.1 = sym then (p.1, { p.2 with apps := p.2.apps ++ [appName] }) else p) }

/-- The second loop of `process_application_json` over the whole symbol set. -/
def updateLists (st : CruncherState) (appName : String) (syms : List String) :
    CruncherState :=
  syms.foldl (fun s sym => recordApp s appName sym) st

/-- `process_application_json` (cruncher.py lines 61-118).  `none` embeds the
`KeyError` raised when a looked-up status is not one of the nine bucket keys. -/
def processApplicationJson (st : CruncherState) (appName : String) (j : AppJson) :
    Option CruncherState :=
  match buildBuckets st.syscalls (localSet j) initBuckets with
  | none => none
  | some b =>
    some (updateLists { st with apps := dictInsert st.apps appName b } appName (localSet j))

/-- Process a sequence of (application name, parsed JSON) pairs in load
order, as `walk_application_json_folder` drives `process_application_json`. -/
def processAll (st : CruncherState) : List (String × AppJson) → Option CruncherState
  | [] => some st
  | (n, j) :: rest =>
    match processApplicationJson st n j with
    | none => none
    | some st2 => processAll st2 rest

/-- The `syscalls` table built by `main` (cruncher.py lines 243-249) from the
three column lists. -/
def buildSyscallTable (ids : List Int) (names stats : List String) :
    List (String × SyscallRecord) :=
  (ids.zip (names.zip stats)).foldl
    (fun t e => dictInsert t e.2.1 { id := e.1, name := e.2.1, status := e.2.2, apps := [] })
    []

/-- The program state right after `main` built the `syscalls` table and
before any application is processed: `apps` and `undefined_syscalls` empty. -/
def initState (rows : List SheetRow) : CruncherState :=
  let ds := processSyscallSpreadsheet rows
  { apps := []
    syscalls := buildSyscallTable ds.ids ds.names ds.stats
    undefined_syscalls := [] }

/-- One printed data row of the app report, with the counts `print_apps`
computes (cruncher.py lines 198-211); `total` is computed exactly as at
line 208. -/
structure AppRow where
  app : String
  total : Nat
  okay : Nat
  not_impl : Nat
  reg_miss : Nat
  incomplete : Nat
  stubbed : Nat
  planned : Nat
  broken : Nat
  in_progress : Nat
  absent : Nat
deriving DecidableEq, Repr

/-- The counts of one application's row in `print_apps`. -/
def appRow (a : String) (b : Buckets) : AppRow :=
  let okay := b.okay.length
  let not_impl := b.not_impl.length
  let incomplete := b.incomplete.length
  let reg_miss := b.reg_miss.length
  let stubbed := b.stubbed.length
  let planned := b.planned.length
  let in_progress := b.in_progress.length
  let broken := b.broken.length
  let absent := b.absent.length
  { app := a
    total := okay + not_impl + incomplete + reg_miss + stubbed + planned + in_progress + broken
    okay := okay, not_impl := not_impl, reg_miss := reg_miss
    incomplete := incomplete, stubbed := stubbed, planned := planned
    broken := broken, in_progress := in_progress, absent := absent }

/-- The data rows printed by `print_apps`, in dictionary iteration order. -/
def printAppsRows (st : CruncherState) : List AppRow :=
  st.apps.map (fun p => appRow p.1 p.2)

/-- The header line of the app report (cruncher.py lines 195-197). -/
def appsHeader : String :=
  "app,total,okay,not_impl,reg_miss,incomplete,stubbed,planned,broken,in_progress,absent"

/-- One CSV line of the app report, fields in the printed order. -/
def appRowLine (r : AppRow) : String :=
  String.intercalate ","
    [r.app, toString r.total, toString r.okay, toString r.not_impl,
     toString r.reg_miss, toString r.incomplete, toString r.stubbed,
     toString r.planned, toString r.broken, toString r.in_progress,
     toString r.absent]

/-- The complete output of `print_apps`: the header line then one line per
application. -/
def printAppsOut (st : CruncherState) : List String :=
  appsHeader :: (printAppsRows st).map appRowLine

/-- The data rows of `print_syscalls` (cruncher.py lines 219-222) as
(syscall, status, num_apps) triples: all `syscalls` rows, then all
`undefined_syscalls` rows with status fixed to "ABSENT". -/
def printSyscallRows (st : CruncherState) : List (String × String × Nat) :=
  st.syscalls.map (fun p => (p.1, p.2.status, p.2.apps.length)) ++
    st.undefined_syscalls.map (fun p => (p.1, "ABSENT", p.2.apps.length))

/-- The nine bucket keys of the per-application dictionary. -/
def nineStatusKeys : List String :=
  ["OKAY", "ABSENT", "NOT_IMPL", "INCOMPLETE", "REG_MISS", "STUBBED",
   "BROKEN", "IN_PROGRESS", "PLANNED"]

/-- Sum of the nine per-status bucket lengths of one application. -/
def sumBuckets (b : Buckets) : Nat :=
  b.okay.length + b.absent.length + b.not_impl.length + b.incomplete.length +
    b.reg_miss.length + b.stubbed.length + b.broken.length +
    b.in_progress.length + b.planned.length

/-- Concrete run: a JSON document whose static section references the single
symbol "x" (unknown to an empty spreadsheet). -/
def exampleJson : AppJson :=
  { static_data := some ["x"], dynamic_data := none }

/-- Bucket map produced for `exampleJson` against an empty status table. -/
def exampleBuckets : Buckets :=
  { okay := [], absent := ["x"], not_impl := [], incomplete := [], reg_miss := []
    stubbed := [], broken := [], in_progress := [], planned := [] }

/-- State after loading an empty spreadsheet and processing `exampleJson`
as application "app1". -/
def exampleState : CruncherState :=
  { apps := [("app1", exampleBuckets)]
    syscalls := []
    undefined_syscalls := [("x", { name := "x", apps := ["app1"] })] }

/-- Concrete run: one spreadsheet data row (12, "brk", "okay"). -/
def exampleRows : List SheetRow :=
  [{ rax := CellValue.num 12, name := "brk", status := "okay" }]

/-- Two applications that both reference "brk", in load order. -/
def exampleApps : List (String × AppJson) :=
  [("app1", { static_data := some ["brk"], dynamic_data := none }),
   ("app2", { static_data := none, dynamic_data := some ["brk"] })]

/-- Bucket map of an application whose only symbol "brk" has status OKAY. -/
def exampleOkayBuckets : Buckets :=
  { okay := ["brk"], absent := [], not_impl := [], incomplete := [], reg_miss := []
    stubbed := [], broken := [], in_progress := [], planned := [] }

/-- State after processing `exampleRows` and both `exampleApps`. -/
def exampleFinal : CruncherState :=
  { apps := [("app1", exampleOkayBuckets), ("app2", exampleOkayBuckets)]
    syscalls := [("brk", { id := 12, name := "brk", status := "OKAY",
                           apps := ["app1", "app2"] })]
    undefined_syscalls := [] }

/-! ### Association-list lemmas -/

theorem lookupA_append {α : Type} (d1 d2 : List (String × α)) (k : String) :
    lookupA (d1 ++ d2) k =
      match lookupA d1 k with
      | some v => some v
      | none => lookupA d2 k := by
  induction d1 with
  | nil => simp [lookupA]
  | cons p t ih =>
    obtain ⟨k2, v⟩ := p
    by_cases h : k2 = k
    · simp only [List.cons_append, lookupA, if_pos h]
    · simp only [List.cons_append, lookupA, if_neg h]
      exact ih

theorem lookupA_mapUpdate {α : Type} (d : List (String × α)) (sym k : String)
    (f : α → α) :
    lookupA (d.map (fun p => if p.1 = sym then (p.1, f p.2) else p)) k =
      if sym = k then (lookupA d k).map f else lookupA d k := by
  induction d with
  | nil => by_cases h : sym = k <;> simp [lookupA, h]
  | cons p t ih =>
    obtain ⟨k1, v⟩ := p
    simp only [List.map_cons]
    by_cases hps : k1 = sym
    · rw [if_pos hps]
      simp only [lookupA]
      by_cases hpk : k1 = k
      · have hsk : sym = k := hps.symm.trans hpk
        rw [if_pos hpk, if_pos hsk, if_pos hpk]
        rfl
      · have hsk : ¬ sym = k := fun h => hpk (hps.trans h)
        rw [if_neg hpk, ih, if_neg hsk, if_neg hsk, if_neg hpk]
    · rw [if_neg hps]
      simp only [lookupA]
      by_cases hpk : k1 = k
      · have hsk : ¬ sym = k := fun h => hps (hpk.trans h.symm)
        rw [if_pos hpk, if_neg hsk, if_pos hpk]
      · rw [if_neg hpk, ih, if_neg hpk]

theorem lookupA_mapReplace {α : Type} (d : List (String × α)) (k : String)
    (v : α) (k2 : String) :
    lookupA (d.map (fun p => if p.1 = k then (k, v) else p)) k2 =
      if k = k2 then (lookupA d k).map (fun _ => v) else lookupA d k2 := by
  induction d with
  | nil => by_cases h : k = k2 <;> simp [lookupA, h]
  | cons p t ih =>
    obtain ⟨k1, w⟩ := p
    simp only [List.map_cons]
    by_cases hps : k1 = k
    · rw [if_pos hps]
      simp only [lookupA]
      by_cases hk2 : k = k2
      · rw [if_pos hk2, if_pos hk2, if_pos hps]
        rfl
      · have hpk2 : ¬ k1 = k2 := fun h => hk2 (hps.symm.trans h)
        rw [if_neg hk2, ih, if_neg hk2, if_neg hpk2, if_neg hk2]
    · rw [if_neg hps]
      simp only [lookupA]
      by_cases hpk2 : k1 = k2
      · have hkk2 : ¬ k = k2 := fun h => hps (hpk2.trans h.symm)
        rw [if_pos hpk2, if_neg hkk2, if_pos hpk2]
      · rw [if_neg hpk2, ih, if_neg hps, if_neg hpk2]

theorem lookupA_eq_none_iff_not_any {α : Type} (d : List (String × α)) (k : String) :
    lookupA d k = none ↔ d.any (fun p => p.1 = k) = false := by
  induction d with
  | nil => simp [lookupA]
  | cons p t ih =>
    obtain ⟨k1, v⟩ := p
    by_cases h : k1 = k
    · simp [lookupA, h]
    · simp [lookupA, h, ih]

theorem lookupA_isSome_iff_any {α : Type} (d : List (String × α)) (k : String) :
    (lookupA d k).isSome = true ↔ d.any (fun p => p.1 = k) = true := by
  rw [← Bool.not_eq_false (d.any _), ← lookupA_eq_none_iff_not_any,
    Option.isSome_iff_ne_none]

theorem lookupA_dictInsert {α : Type} (d : List (String × α)) (k : String)
    (v : α) (k2 : String) :
    lookupA (dictInsert d k v) k2 = if k = k2 then some v else lookupA d k2 := by
  unfold dictInsert
  by_cases hany : d.any (fun p => p.1 = k) = true
  · rw [if_pos hany, lookupA_mapReplace]
    by_cases hk2 : k = k2
    · rw [if_pos hk2, if_pos hk2]
      have hs : (lookupA d k).isSome = true := (lookupA_isSome_iff_any d k).mpr hany
      cases h : lookupA d k with
      | some w => simp
      | none => rw [h] at hs; simp at hs
    · rw [if_neg hk2, if_neg hk2]
  · have hfalse : d.any (fun p => p.1 = k) = false := Bool.eq_false_iff.mpr hany
    rw [if_neg hany, lookupA_append]
    by_cases hk2 : k = k2
    · rw [if_pos hk2, ← hk2, (lookupA_eq_none_iff_not_any d k).mpr hfalse]
      simp [lookupA]
    · rw [if_neg hk2]
      cases h : lookupA d k2 with
      | some v2 => simp
      | none => simp [lookupA, hk2]

theorem lookupA_mem {α : Type} (d : List (String × α)) (k : String) (v : α)
    (h : lookupA d k = some v) : (k, v) ∈ d := by
  induction d with
  | nil => simp [lookupA] at h
  | cons p t ih =>
    obtain ⟨k1, w⟩ := p
    by_cases hpk : k1 = k
    · rw [lookupA, if_pos hpk] at h
      injection h with h
      exact hpk ▸ h ▸ List.mem_cons_self _ _
    · rw [lookupA, if_neg hpk] at h
      exact List.mem_cons_of_mem _ (ih h)

/-! ### Lemmas about the deduplicated symbol set -/

theorem mem_foldl_addUnique (l : List String) :
    ∀ (acc : List String) (x : String),
      x ∈ l.foldl addUnique acc ↔ x ∈ acc ∨ x ∈ l := by
  induction l with
  | nil => simp
  | cons s t ih =>
    intro acc x
    simp only [List.foldl_cons, ih (addUnique acc s) x, List.mem_cons]
    unfold addUnique
    by_cases h : s ∈ acc
    · constructor
      · rintro (hx | hx)
        · simp [h] at hx; exact Or.inl hx
        · exact Or.inr (Or.inr hx)
      · rintro (hx | hx | hx)
        · exact Or.inl (by simp [h]; exact hx)
        · exact Or.inl (by simp [h]; exact hx ▸ h)
        · exact Or.inr hx
    · constructor
      · rintro (hx | hx)
        · simp only [h, if_false, List.mem_append, List.mem_singleton] at hx
          rcases hx with hx | hx
          · exact Or.inl hx
          · exact Or.inr (Or.inl hx)
        · exact Or.inr (Or.inr hx)
      · rintro (hx | hx | hx)
        · exact Or.inl (by simp [h, hx])
        · exact Or.inl (by simp [h, hx])
        · exact Or.inr hx

theorem nodup_foldl_addUnique (l : List String) :
    ∀ (acc : List String), acc.Nodup → (l.foldl addUnique acc).Nodup := by
  induction l with
  | nil => intro acc h; simpa using h
  | cons s t ih =>
    intro acc h
    refine ih (addUnique acc s) ?_
    unfold addUnique
    by_cases hs : s ∈ acc
    · simpa [hs] using h
    · simp only [hs, if_false]
      exact List.Nodup.append h (List.nodup_singleton s)
        (fun x hx hxs => hs (((List.mem_singleton).mp hxs) ▸ hx))

theorem localSet_nodup (j : AppJson) : (localSet j).Nodup :=
  nodup_foldl_addUnique _ _ List.nodup_nil

theorem mem_localSet (j : AppJson) (x : String) :
    x ∈ localSet j ↔ x ∈ staticSyms j ++ dynSyms j := by
  unfold localSet
  rw [mem_foldl_addUnique]
  simp

/-! ### Lemmas about the bucket map -/

theorem bucketAppend_isSome_iff (b : Buckets) (status sym : String) :
    (bucketAppend b status sym).isSome = true ↔ status ∈ nineStatusKeys := by
  unfold bucketAppend nineStatusKeys
  split_ifs with h1 h2 h3 h4 h5 h6 h7 h8 h9 <;> simp_all

theorem bucketAppend_sum (b : Buckets) (status sym : String) (b2 : Buckets)
    (h : bucketAppend b status sym = some b2) :
    sumBuckets b2 = sumBuckets b + 1 := by
  unfold bucketAppend at h
  split_ifs at h <;>
    (injection h with h; subst h; simp [sumBuckets]; omega)

theorem bucketAppend_absent_sub (b : Buckets) (status sym : String) (b2 : Buckets)
    (h : bucketAppend b status sym = some b2) :
    ∀ x ∈ b.absent, x ∈ b2.absent := by
  intro x hx
  unfold bucketAppend at h
  split_ifs at h <;>
    (injection h with h; subst h; simp [hx])

theorem buildBuckets_sum (sys : List (String × SyscallRecord)) (syms : List String) :
    ∀ b b2, buildBuckets sys syms b = some b2 →
      sumBuckets b2 = sumBuckets b + syms.length := by
  induction syms with
  | nil =>
    intro b b2 h
    simp only [buildBuckets, Option.some.injEq] at h
    simp [← h]
  | cons sym rest ih =>
    intro b b2 h
    simp only [buildBuckets] at h
    cases hstep : bucketAppend b (statusFor sys sym) sym with
    | none => rw [hstep] at h; simp at h
    | some b1 =>
      rw [hstep] at h
      simp only at h
      rw [ih b1 b2 h, bucketAppend_sum b _ sym b1 hstep]
      simp [List.length_cons]
      omega

theorem buildBuckets_isSome_iff (sys : List (String × SyscallRecord))
    (syms : List String) :
    ∀ b, (buildBuckets sys syms b).isSome = true ↔
      ∀ sym ∈ syms, statusFor sys sym ∈ nineStatusKeys := by
  induction syms with
  | nil => intro b; simp [buildBuckets]
  | cons sym rest ih =>
    intro b
    simp only [buildBuckets]
    cases h : bucketAppend b (statusFor sys sym) sym with
    | none =>
      have hnot : ¬ statusFor sys sym ∈ nineStatusKeys := by
        rw [← bucketAppend_isSome_iff b _ sym, h]
        simp
      simp [hnot]
    | some b2 =>
      have hmem : statusFor sys sym ∈ nineStatusKeys := by
        rw [← bucketAppend_isSome_iff b _ sym, h]
        rfl
      simp [ih b2, hmem]

theorem buildBuckets_absent_sub (sys : List (String × SyscallRecord))
    (syms : List String) :
    ∀ b b2, buildBuckets sys syms b = some b2 → ∀ x ∈ b.absent, x ∈ b2.absent := by
  induction syms with
  | nil =>
    intro b b2 h
    simp only [buildBuckets, Option.some.injEq] at h
    simp [← h]
  | cons sym rest ih =>
    intro b b2 h
    simp only [buildBuckets] at h
    cases hstep : bucketAppend b (statusFor sys sym) sym with
    | none => rw [hstep] at h; simp at h
    | some b1 =>
      rw [hstep] at h
      simp only at h
      exact fun x hx => ih b1 b2 h x (bucketAppend_absent_sub b _ sym b1 hstep x hx)

theorem buildBuckets_absent_mem (sys : List (String × SyscallRecord))
    (syms : List String) :
    ∀ b b2, buildBuckets sys syms b = some b2 →
      ∀ sym ∈ syms, statusFor sys sym = "ABSENT" → sym ∈ b2.absent := by
  induction syms with
  | nil => intro b b2 _ sym hmem; simp at hmem
  | cons s rest ih =>
    intro b b2 h sym hmem hstat
    simp only [buildBuckets] at h
    cases hstep : bucketAppend b (statusFor sys s) s with
    | none => rw [hstep] at h; simp at h
    | some b1 =>
      rw [hstep] at h
      simp only at h
      rcases List.mem_cons.mp hmem with heq | htail
      · subst heq
        rw [hstat] at hstep
        have hcalc : bucketAppend b "ABSENT" sym =
            some { b with absent := b.absent ++ [sym] } := rfl
        rw [hcalc] at hstep
        injection hstep with hstep
        exact buildBuckets_absent_sub sys rest b1 b2 h sym
          (by rw [← hstep]; simp)
      · exact ih b1 b2 h sym htail hstat

/-! ### Lemmas about the second aggregation loop -/

theorem any_eq_isSome_lookupA {α : Type} (d : List (String × α)) (k : String) :
    d.any (fun p => p.1 = k) = (lookupA d k).isSome := by
  by_cases h : (lookupA d k).isSome = true
  · rw [h, (lookupA_isSome_iff_any d k).mp h]
  · have h2 : (lookupA d k).isSome = false := Bool.eq_false_iff.mpr h
    rw [h2, Bool.eq_false_iff]
    intro hc
    exact h ((lookupA_isSome_iff_any d k).mpr hc)

theorem recordApp_apps (st : CruncherState) (n sym : String) :
    (recordApp st n sym).apps = st.apps := by
  unfold recordApp
  split_ifs <;> rfl

theorem recordApp_syscalls_lookup (st : CruncherState) (n sym k : String) :
    lookupA (recordApp st n sym).syscalls k =
      if sym = k then
        (lookupA st.syscalls k).map (fun r => { r with apps := r.apps ++ [n] })
      else lookupA st.syscalls k := by
  unfold recordApp
  by_cases hany : st.syscalls.any (fun p => p.1 = sym) = true
  · rw [if_pos hany]
    exact lookupA_mapUpdate st.syscalls sym k
      (fun r => { id := r.id, name := r.name, status := r.status, apps := r.apps ++ [n] })
  · rw [if_neg hany]
    simp only
    by_cases hsk : sym = k
    · rw [if_pos hsk, ← hsk,
        (lookupA_eq_none_iff_not_any st.syscalls sym).mpr (Bool.eq_false_iff.mpr hany)]
      rfl
    · rw [if_neg hsk]

theorem recordApp_syscalls_any (st : CruncherState) (n sym k : String) :
    (recordApp st n sym).syscalls.any (fun p => p.1 = k) =
      st.syscalls.any (fun p => p.1 = k) := by
  rw [any_eq_isSome_lookupA, any_eq_isSome_lookupA, recordApp_syscalls_lookup]
  by_cases hsk : sym = k
  · rw [if_pos hsk]
    cases lookupA st.syscalls k <;> rfl
  · rw [if_neg hsk]

theorem recordApp_undef_lookup (st : CruncherState) (n sym k : String) :
    lookupA (recordApp st n sym).undefined_syscalls k =
      if st.syscalls.any (fun p => p.1 = sym) = true then
        lookupA st.undefined_syscalls k
      else if sym = k then
        some (match lookupA st.undefined_syscalls k with
              | some u => { u with apps := u.apps ++ [n] }
              | none => { name := k, apps := [n] })
      else lookupA st.undefined_syscalls k := by
  unfold recordApp
  by_cases hany : st.syscalls.any (fun p => p.1 = sym) = true
  · rw [if_pos hany, if_pos hany]
  · rw [if_neg hany, if_neg hany]
    simp only
    rw [lookupA_mapUpdate _ sym k (fun r : UndefRecord => UndefRecord.mk r.name (r.apps ++ [n]))]
    by_cases husym : st.undefined_syscalls.any (fun p => p.1 = sym) = true
    · rw [if_pos husym]
      by_cases hsk : sym = k
      · rw [if_pos hsk, if_pos hsk, ← hsk]
        have hs : (lookupA st.undefined_syscalls sym).isSome = true :=
          (lookupA_isSome_iff_any _ sym).mpr husym
        cases h : lookupA st.undefined_syscalls sym with
        | some u => rfl
        | none => rw [h] at hs; simp at hs
      · rw [if_neg hsk, if_neg hsk]
    · rw [if_neg husym]
      have hnone : lookupA st.undefined_syscalls sym = none :=
        (lookupA_eq_none_iff_not_any _ sym).mpr (Bool.eq_false_iff.mpr husym)
      by_cases hsk : sym = k
      · subst hsk
        rw [if_pos rfl, if_pos rfl, lookupA_append, hnone]
        simp only [lookupA, if_pos rfl]
        rfl
      · rw [if_neg hsk, if_neg hsk, lookupA_append]
        cases h : lookupA st.undefined_syscalls k with
        | some u => rfl
        | none =>
          simp only [lookupA, if_neg hsk]

theorem updateLists_apps (n : String) (syms : List String) :
    ∀ st : CruncherState, (updateLists st n syms).apps = st.apps := by
  induction syms with
  | nil => intro st; rfl
  | cons s t ih =>
    intro st
    show (updateLists (recordApp st n s) n t).apps = st.apps
    rw [ih, recordApp_apps]

theorem updateLists_syscalls_lookup (n : String) (syms : List String) :
    ∀ (st : CruncherState) (k : String),
      lookupA (updateLists st n syms).syscalls k =
        (lookupA st.syscalls k).map
          (fun r => { r with apps := r.apps ++ List.replicate (syms.count k) n }) := by
  induction syms with
  | nil =>
    intro st k
    show lookupA st.syscalls k = _
    cases lookupA st.syscalls k with
    | none => rfl
    | some r => simp
  | cons s t ih =>
    intro st k
    show lookupA (updateLists (recordApp st n s) n t).syscalls k = _
    rw [ih, recordApp_syscalls_lookup]
    by_cases hsk : s = k
    · have hc : List.count k (s :: t) = List.count k t + 1 := by
        simp [List.count_cons, hsk]
      rw [if_pos hsk, hc]
      cases lookupA st.syscalls k with
      | none => rfl
      | some r => simp [List.append_assoc, List.replicate_succ]
    · have hc : List.count k (s :: t) = List.count k t := by
        simp [List.count_cons, hsk, Ne.symm hsk]
      rw [if_neg hsk, hc]

theorem updateLists_undef_lookup (n : String) (syms : List String) :
    ∀ (st : CruncherState) (k : String),
      lookupA (updateLists st n syms).undefined_syscalls k =
        if st.syscalls.any (fun p => p.1 = k) = true then
          lookupA st.undefined_syscalls k
        else
          match lookupA st.undefined_syscalls k, syms.count k with
          | some u, c => some { u with apps := u.apps ++ List.replicate c n }
          | none, 0 => none
          | none, Nat.succ c => some { name := k, apps := List.replicate (c + 1) n } := by
  induction syms with
  | nil =>
    intro st k
    show lookupA st.undefined_syscalls k = _
    by_cases hany : st.syscalls.any (fun p => p.1 = k) = true
    · rw [if_pos hany]
    · rw [if_neg hany]
      cases lookupA st.undefined_syscalls k with
      | none => rfl
      | some u => simp
  | cons s t ih =>
    intro st k
    show lookupA (updateLists (recordApp st n s) n t).undefined_syscalls k = _
    rw [ih, recordApp_syscalls_any, recordApp_undef_lookup]
    by_cases hany : st.syscalls.any (fun p => p.1 = k) = true
    · simp only [if_pos hany]
      by_cases has : st.syscalls.any (fun p => p.1 = s) = true
      · simp only [if_pos has]
      · have hsk : ¬ s = k := fun h => has (h ▸ hany)
        simp only [if_neg has, if_neg hsk]
    · by_cases hsk : s = k
      · subst hsk
        simp only [if_neg hany, if_pos rfl]
        have hc : List.count s (s :: t) = List.count s t + 1 := by
          simp [List.count_cons]
        rw [hc]
        cases hu : lookupA st.undefined_syscalls s with
        | some u =>
          show some (UndefRecord.mk u.name ((u.apps ++ [n]) ++
              List.replicate (List.count s t) n)) =
            some (UndefRecord.mk u.name (u.apps ++
              List.replicate (List.count s t + 1) n))
          simp [List.append_assoc, List.replicate_succ]
        | none =>
          show some (UndefRecord.mk s ([n] ++ List.replicate (List.count s t) n)) =
            some (UndefRecord.mk s (List.replicate (List.count s t + 1) n))
          simp [List.replicate_succ]
      · have hc : List.count k (s :: t) = List.count k t := by
          simp [List.count_cons, hsk, Ne.symm hsk]
        by_cases has : st.syscalls.any (fun p => p.1 = s) = true
        · simp only [if_neg hany, if_pos has, hc]
        · simp only [if_neg hany, if_neg has, if_neg hsk, hc]

/-! ### Lemmas about processing one application -/

theorem count_localSet (j : AppJson) (k : String) :
    List.count k (localSet j) = if k ∈ localSet j then 1 else 0 := by
  by_cases h : k ∈ localSet j
  · rw [if_pos h, List.count_eq_one_of_mem (localSet_nodup j) h]
  · rw [if_neg h, List.count_eq_zero.mpr h]

theorem processApplicationJson_inv (st : CruncherState) (n : String) (j : AppJson)
    (st' : CruncherState) (h : processApplicationJson st n j = some st') :
    ∃ b, buildBuckets st.syscalls (localSet j) initBuckets = some b ∧
      st' = updateLists { st with apps := dictInsert st.apps n b } n (localSet j) := by
  unfold processApplicationJson at h
  cases hb : buildBuckets st.syscalls (localSet j) initBuckets with
  | none => rw [hb] at h; simp at h
  | some b =>
    rw [hb] at h
    simp only [Option.some.injEq] at h
    exact ⟨b, rfl, h.symm⟩

theorem processApplicationJson_syscalls_lookup (st : CruncherState) (n : String)
    (j : AppJson) (st' : CruncherState) (k : String)
    (h : processApplicationJson st n j = some st') :
    lookupA st'.syscalls k =
      (lookupA st.syscalls k).map
        (fun r => { r with apps := r.apps ++ (if k ∈ localSet j then [n] else []) }) := by
  rcases processApplicationJson_inv st n j st' h with ⟨b, _, hst⟩
  rw [hst, updateLists_syscalls_lookup]
  show (lookupA st.syscalls k).map _ = _
  rw [count_localSet]
  by_cases hk : k ∈ localSet j
  · rw [if_pos hk, if_pos hk]
    rfl
  · rw [if_neg hk, if_neg hk]
    rfl

theorem processAll_syscalls_lookup (l : List (String × AppJson)) :
    ∀ st st', processAll st l = some st' → ∀ k,
      lookupA st'.syscalls k =
        (lookupA st.syscalls k).map
          (fun r => { r with apps := r.apps ++
            (l.filter (fun p => decide (k ∈ localSet p.2))).map (fun p => p.1) }) := by
  induction l with
  | nil =>
    intro st st' h k
    simp only [processAll, Option.some.injEq] at h
    subst h
    cases lookupA st.syscalls k with
    | none => rfl
    | some r => simp
  | cons e rest ih =>
    intro st st' h k
    obtain ⟨n, j⟩ := e
    simp only [processAll] at h
    cases hp : processApplicationJson st n j with
    | none => rw [hp] at h; simp at h
    | some st1 =>
      rw [hp] at h
      simp only at h
      rw [ih st1 st' h k, processApplicationJson_syscalls_lookup st n j st1 k hp]
      by_cases hk : k ∈ localSet j
      · have hf : List.filter (fun p => decide (k ∈ localSet p.2)) ((n, j) :: rest) =
            (n, j) :: List.filter (fun p => decide (k ∈ localSet p.2)) rest := by
          simp [List.filter_cons, hk]
        rw [hf, if_pos hk]
        cases lookupA st.syscalls k with
        | none => rfl
        | some r => simp [List.append_assoc]
      · have hf : List.filter (fun p => decide (k ∈ localSet p.2)) ((n, j) :: rest) =
            List.filter (fun p => decide (k ∈ localSet p.2)) rest := by
          simp [List.filter_cons, hk]
        rw [hf, if_neg hk]
        cases lookupA st.syscalls k with
        | none => rfl
        | some r => simp

/-! ### Lemmas about the initial state -/

theorem mem_dictInsert {α : Type} (t : List (String × α)) (k : String) (v : α)
    (p : String × α) (h : p ∈ dictInsert t k v) : p.2 = v ∨ p ∈ t := by
  unfold dictInsert at h
  split_ifs at h
  · rcases List.mem_map.mp h with ⟨q, hq, heq⟩
    by_cases hqk : q.1 = k
    · rw [if_pos hqk] at heq
      left
      rw [← heq]
    · rw [if_neg hqk] at heq
      right
      rw [← heq]
      exact hq
  · rcases List.mem_append.mp h with h2 | h2
    · right
      exact h2
    · left
      rw [List.mem_singleton.mp h2]

theorem foldlInsert_apps_nil (l : List (Int × String × String)) :
    ∀ t : List (String × SyscallRecord), (∀ p ∈ t, p.2.apps = ([] : List String)) →
      ∀ p ∈ l.foldl (fun t e => dictInsert t e.2.1
          { id := e.1, name := e.2.1, status := e.2.2, apps := [] }) t, p.2.apps = [] := by
  induction l with
  | nil => intro t ht p hp; exact ht p hp
  | cons e rest ih =>
    intro t ht p hp
    refine ih _ ?_ p hp
    intro q hq
    rcases mem_dictInsert _ _ _ q hq with h | h
    · rw [h]
    · exact ht q h

theorem initState_syscalls_apps (rows : List SheetRow) (k : String)
    (r : SyscallRecord) (h : lookupA (initState rows).syscalls k = some r) :
    r.apps = [] := by
  have hm := lookupA_mem _ _ _ h
  exact foldlInsert_apps_nil _ [] (by simp) (k, r) hm

/-! ### Helper lemmas for the claim theorems -/

theorem string_length_zero_iff (s : String) : s.length = 0 ↔ s = "" := by
  cases s with
  | mk data =>
    constructor
    · intro h
      have hd : data = [] := List.length_eq_zero.mp h
      rw [hd]
    · intro h
      rw [h]
      rfl

theorem withApps_syscalls (st : CruncherState) (a : List (String × Buckets)) :
    ({ st with apps := a }).syscalls = st.syscalls := rfl

theorem withApps_undef (st : CruncherState) (a : List (String × Buckets)) :
    ({ st with apps := a }).undefined_syscalls = st.undefined_syscalls := rfl

theorem statusFor_mem_iff (sys : List (String × SyscallRecord)) (sym : String) :
    statusFor sys sym ∈ nineStatusKeys ↔
      ∀ r, lookupA sys sym = some r → r.status ∈ nineStatusKeys := by
  unfold statusFor
  cases h : lookupA sys sym with
  | none =>
    constructor
    · intro _ r hr
      simp at hr
    · intro _
      decide
  | some r =>
    constructor
    · intro hm r2 hr2
      injection hr2 with hr2
      rw [← hr2]
      exact hm
    · intro hall
      exact hall r rfl

theorem normalizeStatus_cases (s : String) :
    normalizeStatus s = "NOT_IMPL" ∨ normalizeStatus s = "INCOMPLETE" ∨
    normalizeStatus s = "REG_MISS" ∨ normalizeStatus s = "STUBBED" ∨
    normalizeStatus s = "PLANNED" ∨ normalizeStatus s = "IN_PROGRESS" ∨
    normalizeStatus s = "BROKEN" ∨ normalizeStatus s = "OKAY" ∨
    (normalizeStatus s = s ∧ ¬ s.length = 0 ∧
      strContains s "incomplete" = false ∧
      strContains s "registration missing" = false ∧
      strContains s "stubbed" = false ∧ strContains s "planned" = false ∧
      strContains s "progress" = false ∧ strContains s "broken" = false ∧
      strContains s "okay" = false) := by
  by_cases h1 : s.length = 0
  · exact Or.inl (by unfold normalizeStatus; rw [if_pos h1])
  by_cases h2 : strContains s "incomplete" = true
  · exact Or.inr (Or.inl (by unfold normalizeStatus; rw [if_neg h1, if_pos h2]))
  by_cases h3 : strContains s "registration missing" = true
  · exact Or.inr (Or.inr (Or.inl
      (by unfold normalizeStatus; rw [if_neg h1, if_neg h2, if_pos h3])))
  by_cases h4 : strContains s "stubbed" = true
  · exact Or.inr (Or.inr (Or.inr (Or.inl
      (by unfold normalizeStatus; rw [if_neg h1, if_neg h2, if_neg h3, if_pos h4]))))
  by_cases h5 : strContains s "planned" = true
  · exact Or.inr (Or.inr (Or.inr (Or.inr (Or.inl
      (by unfold normalizeStatus
          rw [if_neg h1, if_neg h2, if_neg h3, if_neg h4, if_pos h5])))))
  by_cases h6 : strContains s "progress" = true
  · exact Or.inr (Or.inr (Or.inr (Or.inr (Or.inr (Or.inl
      (by unfold normalizeStatus
          rw [if_neg h1, if_neg h2, if_neg h3, if_neg h4, if_neg h5, if_pos h6]))))))
  by_cases h7 : strContains s "broken" = true
  · exact Or.inr (Or.inr (Or.inr (Or.inr (Or.inr (Or.inr (Or.inl
      (by unfold normalizeStatus
          rw [if_neg h1, if_neg h2, if_neg h3, if_neg h4, if_neg h5, if_neg h6,
            if_pos h7])))))))
  by_cases h8 : strContains s "okay" = true
  · exact Or.inr (Or.inr (Or.inr (Or.inr (Or.inr (Or.inr (Or.inr (Or.inl
      (by unfold normalizeStatus
          rw [if_neg h1, if_neg h2, if_neg h3, if_neg h4, if_neg h5, if_neg h6,
            if_neg h7, if_pos h8]))))))))
  refine Or.inr (Or.inr (Or.inr (Or.inr (Or.inr (Or.inr (Or.inr (Or.inr
    ⟨?_, h1, Bool.eq_false_iff.mpr h2, Bool.eq_false_iff.mpr h3,
      Bool.eq_false_iff.mpr h4, Bool.eq_false_iff.mpr h5, Bool.eq_false_iff.mpr h6,
      Bool.eq_false_iff.mpr h7, Bool.eq_false_iff.mpr h8⟩)))))))
  unfold normalizeStatus
  rw [if_neg h1, if_neg h2, if_neg h3, if_neg h4, if_neg h5, if_neg h6, if_neg h7,
    if_neg h8]

theorem normalizeStatus_fix (s : String) (h1 : ¬ s.length = 0)
    (h2 : strContains s "incomplete" = false)
    (h3 : strContains s "registration missing" = false)
    (h4 : strContains s "stubbed" = false) (h5 : strContains s "planned" = false)
    (h6 : strContains s "progress" = false) (h7 : strContains s "broken" = false)
    (h8 : strContains s "okay" = false) :
    normalizeStatus s = s := by
  unfold normalizeStatus
  rw [if_neg h1, if_neg (by simp [h2]), if_neg (by simp [h3]), if_neg (by simp [h4]),
    if_neg (by simp [h5]), if_neg (by simp [h6]), if_neg (by simp [h7]),
    if_neg (by simp [h8])]

/-! ### The claim theorems -/

/-- C1 (amended): in the app report, for every printed application row, the
printed total column equals the sum of the eight per-status bucket counts
other than absent (okay, not_impl, reg_miss, incomplete, stubbed, planned,
broken, in_progress); the absent bucket is not included in the total
computed at cruncher.py line 208. -/
theorem claim1_total_excludes_absent (st : CruncherState) (r : AppRow)
    (h : r ∈ printAppsRows st) :
    r.total = r.okay + r.not_impl + r.reg_miss + r.incomplete + r.stubbed +
      r.planned + r.broken + r.in_progress := by
  rcases List.mem_map.mp h with ⟨p, _, hp⟩
  rw [← hp]
  show (appRow p.1 p.2).total = _
  simp only [appRow]
  omega

/-- C1 (witness): the amended claim applied to the concrete run with one
application whose only symbol falls into the absent bucket. -/
theorem claim1_total_excludes_absent_witness :
    (appRow "app1" exampleBuckets).total =
      (appRow "app1" exampleBuckets).okay + (appRow "app1" exampleBuckets).not_impl +
      (appRow "app1" exampleBuckets).reg_miss + (appRow "app1" exampleBuckets).incomplete +
      (appRow "app1" exampleBuckets).stubbed + (appRow "app1" exampleBuckets).planned +
      (appRow "app1" exampleBuckets).broken + (appRow "app1" exampleBuckets).in_progress :=
  claim1_total_excludes_absent exampleState (appRow "app1" exampleBuckets) (by decide)

/-- C1 (counterexample): a concrete run (empty spreadsheet, one application
referencing the unknown symbol "x") prints an application row whose total (0)
differs from the sum of all nine bucket counts (1): the absent bucket is left
out of the total. -/
theorem claim1_nine_bucket_total_counterexample :
    processApplicationJson (initState []) "app1" exampleJson = some exampleState ∧
    ∃ r ∈ printAppsRows exampleState,
      ¬ r.total = r.okay + r.not_impl + r.reg_miss + r.incomplete + r.stubbed +
        r.planned + r.broken + r.in_progress + r.absent := by
  constructor
  · rfl
  · exact ⟨appRow "app1" exampleBuckets, by decide, by decide⟩

/-- C2: the status normalizer applies exactly the first-match-wins precedence
the spec states: empty maps to NOT_IMPL, else "incomplete" to INCOMPLETE,
else "registration missing" to REG_MISS, else "stubbed" to STUBBED, else
"planned" to PLANNED, else "progress" to IN_PROGRESS, else "broken" to
BROKEN, else "okay" to OKAY, else the raw text is returned unchanged:
the code's chain equals the spec-modelled chain on every string. -/
theorem claim2_status_normalizer_precedence (s : String) :
    normalizeStatus s = specStatusNormalize s := by
  unfold normalizeStatus specStatusNormalize
  by_cases h : s.length = 0
  · rw [if_pos h, if_pos ((string_length_zero_iff s).mp h)]
  · rw [if_neg h, if_neg (fun hc => h ((string_length_zero_iff s).mpr hc))]

/-- C3: for every successfully processed application, the sum of the lengths
of its nine per-status bucket lists equals the number of unique syscall
symbols in the union of its optional static and dynamic sections. -/
theorem claim3_buckets_partition_unique_symbols (st : CruncherState) (n : String)
    (j : AppJson) (st' : CruncherState)
    (h : processApplicationJson st n j = some st') :
    ∃ b, lookupA st'.apps n = some b ∧
      sumBuckets b = ((staticSyms j ++ dynSyms j).toFinset).card := by
  rcases processApplicationJson_inv st n j st' h with ⟨b, hb, hst⟩
  refine ⟨b, ?_, ?_⟩
  · rw [hst, updateLists_apps]
    show lookupA (dictInsert st.apps n b) n = some b
    rw [lookupA_dictInsert, if_pos rfl]
  · have hsum := buildBuckets_sum st.syscalls (localSet j) initBuckets b hb
    have h0 : sumBuckets initBuckets = 0 := rfl
    rw [h0, Nat.zero_add] at hsum
    rw [hsum]
    have hmemeq : (localSet j).toFinset = (staticSyms j ++ dynSyms j).toFinset := by
      ext x
      simp only [List.mem_toFinset]
      exact mem_localSet j x
    rw [← hmemeq]
    exact (List.toFinset_card_of_nodup (localSet_nodup j)).symm

/-- C3 (witness): the partition count claim applied to the concrete run with
one application referencing one unknown symbol. -/
theorem claim3_partition_witness :
    ∃ b, lookupA exampleState.apps "app1" = some b ∧
      sumBuckets b = ((staticSyms exampleJson ++ dynSyms exampleJson).toFinset).card :=
  claim3_buckets_partition_unique_symbols (initState []) "app1" exampleJson
    exampleState rfl

/-- C4: after all applications are processed from the initial state, every
record of the status table lists exactly the loaded applications whose
deduplicated symbol set contains that syscall's name, in load order (hence
its apps list has that number of elements). -/
theorem claim4_apps_list_load_order (rows : List SheetRow)
    (l : List (String × AppJson)) (st' : CruncherState)
    (h : processAll (initState rows) l = some st')
    (k : String) (r : SyscallRecord)
    (hk : lookupA st'.syscalls k = some r) :
    r.apps = (l.filter (fun p => decide (k ∈ localSet p.2))).map (fun p => p.1) ∧
    r.apps.length = (l.filter (fun p => decide (k ∈ localSet p.2))).length := by
  have hlook := processAll_syscalls_lookup l (initState rows) st' h k
  rw [hk] at hlook
  cases h0 : lookupA (initState rows).syscalls k with
  | none => rw [h0] at hlook; simp at hlook
  | some r0 =>
    rw [h0] at hlook
    have hreq : r = { r0 with apps := r0.apps ++
        (l.filter (fun p => decide (k ∈ localSet p.2))).map (fun p => p.1) } :=
      Option.some.inj hlook
    have happs0 := initState_syscalls_apps rows k r0 h0
    have hmain : r.apps =
        (l.filter (fun p => decide (k ∈ localSet p.2))).map (fun p => p.1) := by
      rw [hreq]
      show r0.apps ++ _ = _
      rw [happs0, List.nil_append]
    exact ⟨hmain, by rw [hmain, List.length_map]⟩

/-- C4 (witness): the claim applied to the concrete run with one spreadsheet
row "brk" (OKAY) and two applications that both reference "brk": the record's
apps list is exactly both application names in load order. -/
theorem claim4_apps_list_witness :
    ({ id := 12, name := "brk", status := "OKAY",
       apps := ["app1", "app2"] } : SyscallRecord).apps =
      (exampleApps.filter (fun p => decide ("brk" ∈ localSet p.2))).map (fun p => p.1) ∧
    ({ id := 12, name := "brk", status := "OKAY",
       apps := ["app1", "app2"] } : SyscallRecord).apps.length =
      (exampleApps.filter (fun p => decide ("brk" ∈ localSet p.2))).length :=
  claim4_apps_list_load_order exampleRows exampleApps exampleFinal rfl "brk" _ rfl

/-- C5: processing an application succeeds exactly when every referenced
symbol that is found in the status table carries one of the nine bucket
statuses; a looked-up status outside the nine keys makes the bucket append
fail (the embedded KeyError, `none`). -/
theorem claim5_processing_total_iff_statuses_known (st : CruncherState)
    (n : String) (j : AppJson) :
    (processApplicationJson st n j).isSome = true ↔
      ∀ sym ∈ localSet j, ∀ r, lookupA st.syscalls sym = some r →
        r.status ∈ nineStatusKeys := by
  have hiff := buildBuckets_isSome_iff st.syscalls (localSet j) initBuckets
  constructor
  · intro h sym hsym r hr
    unfold processApplicationJson at h
    cases hb : buildBuckets st.syscalls (localSet j) initBuckets with
    | none => rw [hb] at h; simp at h
    | some b =>
      have hmem := (hiff.mp (by rw [hb]; rfl)) sym hsym
      exact (statusFor_mem_iff _ _).mp hmem r hr
  · intro hall
    have hstat : ∀ sym ∈ localSet j, statusFor st.syscalls sym ∈ nineStatusKeys :=
      fun sym hs => (statusFor_mem_iff _ _).mpr (hall sym hs)
    have hb := hiff.mpr hstat
    unfold processApplicationJson
    cases hbb : buildBuckets st.syscalls (localSet j) initBuckets with
    | none => rw [hbb] at hb; simp at hb
    | some b => rfl

/-- C6: the status normalizer is idempotent: applying it to any of its
outputs (the eight enum constants or a passed-through raw string) returns
the value unchanged, since no lowercase trigger substring occurs in any
uppercase enum constant under case-sensitive containment. -/
theorem claim6_normalizer_idempotent (s : String) :
    normalizeStatus (normalizeStatus s) = normalizeStatus s := by
  rcases normalizeStatus_cases s with h|h|h|h|h|h|h|h|⟨h, h1, h2, h3, h4, h5, h6, h7, h8⟩
  · rw [h]; decide
  · rw [h]; decide
  · rw [h]; decide
  · rw [h]; decide
  · rw [h]; decide
  · rw [h]; decide
  · rw [h]; decide
  · rw [h]; decide
  · rw [h]
    exact normalizeStatus_fix s h1 h2 h3 h4 h5 h6 h7 h8

/-- C7: a referenced symbol absent from the status table lands in the
application's ABSENT bucket; on first reference an UndefinedSyscallRecord
is created with that application's name appended, and the syscall report
contains the row (symbol, "ABSENT", 1). -/
theorem claim7_absent_symbol_reporting (st : CruncherState) (n : String)
    (j : AppJson) (st' : CruncherState) (sym : String)
    (h : processApplicationJson st n j = some st')
    (hsym : sym ∈ localSet j)
    (habs : lookupA st.syscalls sym = none)
    (hfirst : lookupA st.undefined_syscalls sym = none) :
    (∃ b, lookupA st'.apps n = some b ∧ sym ∈ b.absent) ∧
    lookupA st'.undefined_syscalls sym = some { name := sym, apps := [n] } ∧
    (sym, "ABSENT", 1) ∈ printSyscallRows st' := by
  rcases processApplicationJson_inv st n j st' h with ⟨b, hb, hst⟩
  have hanyf : st.syscalls.any (fun p => p.1 = sym) = false :=
    (lookupA_eq_none_iff_not_any _ _).mp habs
  have hne : ¬ st.syscalls.any (fun p => p.1 = sym) = true := by
    rw [hanyf]
    exact Bool.false_ne_true
  have hund : lookupA st'.undefined_syscalls sym = some { name := sym, apps := [n] } := by
    rw [hst, updateLists_undef_lookup, withApps_syscalls, withApps_undef]
    rw [if_neg hne, hfirst]
    have hc : List.count sym (localSet j) = 1 := by
      rw [count_localSet, if_pos hsym]
    have hc1 : List.count sym (localSet j) = Nat.succ 0 := hc
    rw [hc1]
    rfl
  refine ⟨⟨b, ?_, ?_⟩, hund, ?_⟩
  · rw [hst, updateLists_apps]
    show lookupA (dictInsert st.apps n b) n = some b
    rw [lookupA_dictInsert, if_pos rfl]
  · refine buildBuckets_absent_mem st.syscalls (localSet j) initBuckets b hb sym hsym ?_
    unfold statusFor
    rw [habs]
  · have hmem := lookupA_mem _ _ _ hund
    unfold printSyscallRows
    apply List.mem_append_right
    have hr : (sym, ("ABSENT" : String), (1 : Nat)) =
        (fun p : String × UndefRecord => (p.1, "ABSENT", p.2.apps.length))
          (sym, { name := sym, apps := [n] }) := rfl
    rw [hr]
    exact List.mem_map_of_mem _ hmem

/-- C7 (witness): the absent-symbol claim applied to the concrete run with
one application referencing the unknown symbol "x" against an empty table. -/
theorem claim7_absent_witness :
    (∃ b, lookupA exampleState.apps "app1" = some b ∧ "x" ∈ b.absent) ∧
    lookupA exampleState.undefined_syscalls "x" = some { name := "x", apps := ["app1"] } ∧
    ("x", "ABSENT", 1) ∈ printSyscallRows exampleState :=
  claim7_absent_symbol_reporting (initState []) "app1" exampleJson exampleState "x"
    rfl (by decide) rfl rfl

/-- C8: with zero application files loaded, every status-table record has an
empty apps list, the undefined-syscalls mapping is empty, and the app report
output is exactly the header row. -/
theorem claim8_zero_apps (rows : List SheetRow) :
    processAll (initState rows) [] = some (initState rows) ∧
    (∀ k r, lookupA (initState rows).syscalls k = some r → r.apps = []) ∧
    (initState rows).undefined_syscalls = [] ∧
    printAppsOut (initState rows) = [appsHeader] :=
  ⟨rfl, fun k r h => initState_syscalls_apps rows k r h, rfl, rfl⟩

/-- C9: parsing the id column never fails: the ids column has one entry per
data row, and for every cell the conversion either succeeds and that integer
is used, or it fails and the sentinel -1 is recorded. -/
theorem claim9_id_parse_never_fails (rows : List SheetRow) :
    (processSyscallSpreadsheet rows).ids.length = rows.length ∧
    ∀ c : CellValue, (∃ n, pyInt c = some n ∧ parseRax c = n) ∨
      (pyInt c = none ∧ parseRax c = -1) := by
  constructor
  · simp [processSyscallSpreadsheet]
  · intro c
    unfold parseRax
    cases h : pyInt c with
    | some n =>
      left
      exact ⟨n, rfl, rfl⟩
    | none =>
      right
      exact ⟨rfl, rfl⟩

/-- C10: for every symbol of a successfully processed application, exactly
one of the two apps-list updates happens: when the symbol is a key of the
status table, the application name is appended to that record and the
undefined mapping is untouched at that key; otherwise the syscall table
remains without the key and the application name is appended to the
(possibly just created) undefined record; hence the symbol ends up recorded
in the undefined mapping if and only if it is absent from the status table
(or was already recorded). -/
theorem claim10_exactly_one_update (st : CruncherState) (n : String) (j : AppJson)
    (st' : CruncherState) (sym : String)
    (h : processApplicationJson st n j = some st')
    (hsym : sym ∈ localSet j) :
    (∀ r, lookupA st.syscalls sym = some r →
        lookupA st'.syscalls sym = some { r with apps := r.apps ++ [n] } ∧
        lookupA st'.undefined_syscalls sym = lookupA st.undefined_syscalls sym) ∧
    (lookupA st.syscalls sym = none →
        lookupA st'.syscalls sym = none ∧
        lookupA st'.undefined_syscalls sym =
          some (match lookupA st.undefined_syscalls sym with
                | some u => { u with apps := u.apps ++ [n] }
                | none => { name := sym, apps := [n] })) ∧
    ((lookupA st'.undefined_syscalls sym).isSome = true ↔
      (lookupA st.syscalls sym = none ∨
        (lookupA st.undefined_syscalls sym).isSome = true)) := by
  rcases processApplicationJson_inv st n j st' h with ⟨b, hb, hst⟩
  have hc : List.count sym (localSet j) = 1 := by
    rw [count_localSet, if_pos hsym]
  have hsys : lookupA st'.syscalls sym =
      (lookupA st.syscalls sym).map (fun r => { r with apps := r.apps ++ [n] }) := by
    have := processApplicationJson_syscalls_lookup st n j st' sym h
    rw [if_pos hsym] at this
    exact this
  have hundef : lookupA st'.undefined_syscalls sym =
      if st.syscalls.any (fun p => p.1 = sym) = true then
        lookupA st.undefined_syscalls sym
      else
        some (match lookupA st.undefined_syscalls sym with
              | some u => { u with apps := u.apps ++ [n] }
              | none => { name := sym, apps := [n] }) := by
    rw [hst, updateLists_undef_lookup, withApps_syscalls, withApps_undef, hc]
    by_cases hany : st.syscalls.any (fun p => p.1 = sym) = true
    · rw [if_pos hany, if_pos hany]
    · rw [if_neg hany, if_neg hany]
      cases hu : lookupA st.undefined_syscalls sym with
      | some u => rfl
      | none => rfl
  refine ⟨?_, ?_, ?_⟩
  · intro r hr
    have hany : st.syscalls.any (fun p => p.1 = sym) = true :=
      (lookupA_isSome_iff_any _ _).mp (by rw [hr]; rfl)
    constructor
    · rw [hsys, hr]
      rfl
    · rw [hundef, if_pos hany]
  · intro hr
    have hanyf : st.syscalls.any (fun p => p.1 = sym) = false :=
      (lookupA_eq_none_iff_not_any _ _).mp hr
    have hne : ¬ st.syscalls.any (fun p => p.1 = sym) = true := by
      rw [hanyf]
      exact Bool.false_ne_true
    constructor
    · rw [hsys, hr]
      rfl
    · rw [hundef, if_neg hne]
  · cases hr : lookupA st.syscalls sym with
    | some r =>
      have hany : st.syscalls.any (fun p => p.1 = sym) = true :=
        (lookupA_isSome_iff_any _ _).mp (by rw [hr]; rfl)
      rw [hundef, if_pos hany]
      simp
    | none =>
      have hanyf : st.syscalls.any (fun p => p.1 = sym) = false :=
        (lookupA_eq_none_iff_not_any _ _).mp hr
      have hne : ¬ st.syscalls.any (fun p => p.1 = sym) = true := by
        rw [hanyf]
        exact Bool.false_ne_true
      rw [hundef, if_neg hne]
      simp

/-- C10 (witness): the exactly-one-update claim applied to the concrete run
with one application referencing the unknown symbol "x". -/
theorem claim10_update_witness :
    (∀ r, lookupA (initState []).syscalls "x" = some r →
        lookupA exampleState.syscalls "x" = some { r with apps := r.apps ++ ["app1"] } ∧
        lookupA exampleState.undefined_syscalls "x" =
          lookupA (initState []).undefined_syscalls "x") ∧
    (lookupA (initState []).syscalls "x" = none →
        lookupA exampleState.syscalls "x" = none ∧
        lookupA exampleState.undefined_syscalls "x" =
          some (match lookupA (initState []).undefined_syscalls "x" with
                | some u => { u with apps := u.apps ++ ["app1"] }
                | none => { name := "x", apps := ["app1"] })) ∧
    ((lookupA exampleState.undefined_syscalls "x").isSome = true ↔
      (lookupA (initState []).syscalls "x" = none ∨
        (lookupA (initState []).undefined_syscalls "x").isSome = true)) :=
  claim10_exactly_one_update (initState []) "app1" exampleJson exampleState "x"
    rfl (by decide)

end Cruncher
